import Mathlib

/-!
Verification of the request-signing routine of `src/nodes/omni_human/__init__.py`
(class `OmniHumanNode`).  Python strings are modelled as Lean `String`
(code-point sequences), Python `bytes` as `List Nat` with entries below 256,
and Python `dict`s as association lists in insertion order whose keys are
distinct.  The wall-clock read in `generate_authorization_header` is modelled
by passing the two derived date strings (`amz_date`, `date_stamp`) as explicit
arguments.  SHA-256 and HMAC-SHA256 (the `hashlib` and `hmac` calls of the source) are
implemented below from the FIPS 180-4 / RFC 2104 definitions.
-/

namespace OmniHuman

/-- Concatenation of a list of lists (`itertools.chain` style helper). -/
def concatAll {α : Type} : List (List α) → List α
  | [] => []
  | x :: xs => x ++ concatAll xs

/-- Python `sep.join(parts)`. -/
def pyJoin (sep : String) : List String → String
  | [] => ""
  | [x] => x
  | x :: y :: xs => x ++ sep ++ pyJoin sep (y :: xs)

/-- ASCII lower-casing of one character (Python `str.lower` on the ASCII
range; all header names and protocol constants in this API are ASCII). -/
def lowerChar (c : Char) : Char :=
  if 'A' ≤ c ∧ c ≤ 'Z' then Char.ofNat (c.toNat + 32) else c

/-- Python `str.lower`. -/
def lowerStr (s : String) : String := ⟨s.data.map lowerChar⟩

/-- Whitespace as recognised by Python `str.strip()` (ASCII range). -/
def isPySpace (c : Char) : Bool :=
  c = ' ' || c = '\t' || c = '\n' || c = '\r' || c = Char.ofNat 11 || c = Char.ofNat 12

/-- Python `str.strip()`: remove leading and trailing whitespace. -/
def pyStrip (s : String) : String :=
  ⟨((s.data.dropWhile isPySpace).reverse.dropWhile isPySpace).reverse⟩

/-- UTF-8 encoding of a single code point (Python `str.encode("utf-8")`,
one character). -/
def utf8Char (c : Char) : List Nat :=
  let n := c.toNat
  if n < 128 then [n]
  else if n < 2048 then [192 + n / 64, 128 + n % 64]
  else if n < 65536 then [224 + n / 4096, 128 + (n / 64) % 64, 128 + n % 64]
  else [240 + n / 262144, 128 + (n / 4096) % 64, 128 + (n / 64) % 64, 128 + n % 64]

/-- Python `str.encode("utf-8")`. -/
def utf8Str (s : String) : List Nat := concatAll (s.data.map utf8Char)

/-! ### SHA-256 (FIPS 180-4), as computed by `hashlib.sha256` -/

/-- The word modulus 2^32 of SHA-256. -/
def M32 : Nat := 4294967296

/-- Right-rotation of a 32-bit word. -/
def rotr (x n : Nat) : Nat := x / 2 ^ n + x % 2 ^ n * 2 ^ (32 - n)

/-- Bitwise complement of a 32-bit word. -/
def not32 (x : Nat) : Nat := 4294967295 - x

/-- The function named big sigma 0 in FIPS 180-4. -/
def bigSigma0 (x : Nat) : Nat := rotr x 2 ^^^ rotr x 13 ^^^ rotr x 22

/-- The function named big sigma 1 in FIPS 180-4. -/
def bigSigma1 (x : Nat) : Nat := rotr x 6 ^^^ rotr x 11 ^^^ rotr x 25

/-- The function named small sigma 0 in FIPS 180-4. -/
def smallSigma0 (x : Nat) : Nat := rotr x 7 ^^^ rotr x 18 ^^^ x / 2 ^ 3

/-- The function named small sigma 1 in FIPS 180-4. -/
def smallSigma1 (x : Nat) : Nat := rotr x 17 ^^^ rotr x 19 ^^^ x / 2 ^ 10

/-- Integer cube root by binary search (`fuel` bounds the iteration count;
the invariant is `lo ^ 3 ≤ n < hi ^ 3`). -/
def icbrtGo (n : Nat) : Nat → Nat → Nat → Nat
  | 0, lo, _ => lo
  | fuel + 1, lo, hi =>
    if hi ≤ lo + 1 then lo
    else
      let mid := (lo + hi) / 2
      if mid ^ 3 ≤ n then icbrtGo n fuel mid hi else icbrtGo n fuel lo mid

/-- Integer cube root (floor). -/
def icbrt (n : Nat) : Nat := icbrtGo n 200 0 (n + 1)

/-- Integer square root by binary search, same scheme as `icbrtGo`. -/
def isqrtGo (n : Nat) : Nat → Nat → Nat → Nat
  | 0, lo, _ => lo
  | fuel + 1, lo, hi =>
    if hi ≤ lo + 1 then lo
    else
      let mid := (lo + hi) / 2
      if mid ^ 2 ≤ n then isqrtGo n fuel mid hi else isqrtGo n fuel lo mid

/-- Integer square root (floor). -/
def isqrt (n : Nat) : Nat := isqrtGo n 200 0 (n + 1)

/-- The first 64 primes, whose cube and square roots seed the SHA-256
round constants and initial state. -/
def primes64 : List Nat :=
  [2, 3, 5, 7, 11, 13, 17, 19, 23, 29, 31, 37, 41, 43, 47, 53, 59, 61,
   67, 71, 73, 79, 83, 89, 97, 101, 103, 107, 109, 113, 127, 131, 137,
   139, 149, 151, 157, 163, 167, 173, 179, 181, 191, 193, 197, 199, 211,
   223, 227, 229, 233, 239, 241, 251, 257, 263, 269, 271, 277, 281, 283,
   293, 307, 311]

/-- The 64 SHA-256 round constants: the first 32 bits of the fractional
parts of the cube roots of the first 64 primes. -/
def K64 : List Nat := primes64.map (fun p => icbrt (p * 2 ^ 96) % M32)

/-- Working state of the SHA-256 compression function. -/
structure Sha2State where
  a : Nat
  b : Nat
  c : Nat
  d : Nat
  e : Nat
  f : Nat
  g : Nat
  hh : Nat
deriving Repr, DecidableEq

/-- The SHA-256 initial state: first 32 bits of the fractional parts of the
square roots of the first 8 primes. -/
def sha2Init : Sha2State :=
  match (primes64.take 8).map (fun p => isqrt (p * 2 ^ 64) % M32) with
  | [a, b, c, d, e, f, g, hh] => ⟨a, b, c, d, e, f, g, hh⟩
  | _ => ⟨0, 0, 0, 0, 0, 0, 0, 0⟩

/-- One SHA-256 round with round constant `k` and schedule word `w`. -/
def sha2Round (st : Sha2State) (k w : Nat) : Sha2State :=
  let t1 := (st.hh + bigSigma1 st.e + ((st.e &&& st.f) ^^^ (not32 st.e &&& st.g)) + k + w) % M32
  let t2 := (bigSigma0 st.a + ((st.a &&& st.b) ^^^ (st.a &&& st.c) ^^^ (st.b &&& st.c))) % M32
  ⟨(t1 + t2) % M32, st.a, st.b, st.c, (st.d + t1) % M32, st.e, st.f, st.g⟩

/-- Iterate the round function over the zipped (constant, schedule) words. -/
def sha2Rounds : List (Nat × Nat) → Sha2State → Sha2State
  | [], st => st
  | (k, w) :: rest, st => sha2Rounds rest (sha2Round st k w)

/-- Big-endian grouping of bytes into 32-bit words. -/
def bytesToWords : List Nat → List Nat
  | b0 :: b1 :: b2 :: b3 :: rest => (((b0 * 256 + b1) * 256 + b2) * 256 + b3) :: bytesToWords rest
  | _ => []

/-- Extend the 16 message words of one block to the 64 schedule words. -/
def schedGo : Nat → List Nat → List Nat
  | 0, w => w
  | fuel + 1, w =>
    let t := w.length
    let nw := (smallSigma1 (w.getD (t - 2) 0) + w.getD (t - 7) 0 +
               smallSigma0 (w.getD (t - 15) 0) + w.getD (t - 16) 0) % M32
    schedGo fuel (w ++ [nw])

/-- The 64-word message schedule of one 64-byte block. -/
def schedule (block : List Nat) : List Nat := schedGo 48 (bytesToWords block)

/-- Compress one 64-byte block into the running state. -/
def sha2Block (st : Sha2State) (block : List Nat) : Sha2State :=
  let r := sha2Rounds (K64.zip (schedule block)) st
  ⟨(st.a + r.a) % M32, (st.b + r.b) % M32, (st.c + r.c) % M32, (st.d + r.d) % M32,
   (st.e + r.e) % M32, (st.f + r.f) % M32, (st.g + r.g) % M32, (st.hh + r.hh) % M32⟩

/-- Split a byte string into 64-byte chunks (`fuel` only bounds the
recursion depth; one chunk consumes at least one byte, so `l.length`
fuel always suffices). -/
def chunks64Go : Nat → List Nat → List (List Nat)
  | _, [] => []
  | 0, l => [l]
  | fuel + 1, l => l.take 64 :: chunks64Go fuel (l.drop 64)

/-- Split a byte string into 64-byte chunks. -/
def chunks64 (l : List Nat) : List (List Nat) := chunks64Go l.length l

/-- Big-endian 8-byte encoding of the message bit length. -/
def lenBytes (n : Nat) : List Nat :=
  [n / 2 ^ 56 % 256, n / 2 ^ 48 % 256, n / 2 ^ 40 % 256, n / 2 ^ 32 % 256,
   n / 2 ^ 24 % 256, n / 2 ^ 16 % 256, n / 2 ^ 8 % 256, n % 256]

/-- SHA-256 padding: a 0x80 byte, zeros to 56 mod 64, then the bit length. -/
def padMsg (msg : List Nat) : List Nat :=
  msg ++ 128 :: List.replicate ((119 - msg.length % 64) % 64) 0 ++ lenBytes (msg.length * 8)

/-- Big-endian 4-byte serialisation of a 32-bit word. -/
def wordBytes (x : Nat) : List Nat := [x / 2 ^ 24 % 256, x / 2 ^ 16 % 256, x / 2 ^ 8 % 256, x % 256]

/-- SHA-256 digest (32 bytes) of a byte string, as `hashlib.sha256(...).digest()`. -/
def sha256 (msg : List Nat) : List Nat :=
  let st := (chunks64 (padMsg msg)).foldl sha2Block sha2Init
  wordBytes st.a ++ wordBytes st.b ++ wordBytes st.c ++ wordBytes st.d ++
  wordBytes st.e ++ wordBytes st.f ++ wordBytes st.g ++ wordBytes st.hh

/-- Lower-case hex digit. -/
def hexDigit (n : Nat) : Char := if n < 10 then Char.ofNat (48 + n) else Char.ofNat (87 + n)

/-- Lower-case hex rendering of a byte string (`bytes.hex()` / `.hexdigest()`). -/
def hexStr (bs : List Nat) : String :=
  ⟨concatAll (bs.map (fun b => [hexDigit (b / 16), hexDigit (b % 16)]))⟩

/-- HMAC-SHA256 (RFC 2104, block size 64), as `hmac.new(key, msg, hashlib.sha256).digest()`;
model of the helper `_hmac_sha256` at lines 68-71 of the source. -/
def hmacSha256 (key msg : List Nat) : List Nat :=
  let k1 := if 64 < key.length then sha256 key else key
  let k2 := k1 ++ List.replicate (64 - k1.length) 0
  sha256 (k2.map (fun b => b ^^^ 92) ++ sha256 (k2.map (fun b => b ^^^ 54) ++ msg))

/-! ### Percent-encoding, from `urllib.parse.quote` with an empty safe set -/

/-- Upper-case hex digit (as used by the `%XX` escapes of `quote`). -/
def hexDigitUp (n : Nat) : Char := if n < 10 then Char.ofNat (48 + n) else Char.ofNat (55 + n)

/-- Characters `quote` never escapes: ASCII letters, digits, and `_.-~`. -/
def quoteSafe (c : Char) : Bool :=
  ('A' ≤ c && c ≤ 'Z') || ('a' ≤ c && c ≤ 'z') || ('0' ≤ c && c ≤ '9') ||
  c = '_' || c = '.' || c = '-' || c = '~'

/-- Python `quote` with an empty safe set: safe characters pass through,
every other character is UTF-8 encoded and each byte rendered as `%XX`. -/
def pyQuote (s : String) : String :=
  ⟨concatAll (s.data.map (fun c =>
    if quoteSafe c then [c]
    else concatAll ((utf8Char c).map (fun b => ['%', hexDigitUp (b / 16), hexDigitUp (b % 16)]))))⟩

/-! ### Python `str.split` and the host extraction of line 157 -/

/-- `leadsWith pat l` is true when `pat` is an initial segment of `l`. -/
def leadsWith : List Char → List Char → Bool
  | [], _ => true
  | _ :: _, [] => false
  | a :: as, b :: bs => a == b && leadsWith as bs

/-- Text before and after the first occurrence of the separator
`c :: cs`, or `none` when it does not occur. -/
def splitFirst (c : Char) (cs : List Char) : List Char → Option (List Char × List Char)
  | [] => none
  | x :: xs =>
    if leadsWith (c :: cs) (x :: xs) then some ([], (x :: xs).drop (cs.length + 1))
    else
      match splitFirst c cs xs with
      | some (pre, post) => some (x :: pre, post)
      | none => none

theorem splitFirst_shrinks (c : Char) (cs s pre post : List Char)
    (h : splitFirst c cs s = some (pre, post)) : post.length < s.length := by
  induction s generalizing pre post with
  | nil => simp [splitFirst] at h
  | cons x xs ih =>
    rw [splitFirst] at h
    by_cases hp : leadsWith (c :: cs) (x :: xs)
    · rw [if_pos hp] at h
      cases h
      simp [List.length_drop]
      omega
    · rw [if_neg hp] at h
      cases hsp : splitFirst c cs xs with
      | none => rw [hsp] at h; cases h
      | some pq =>
        rw [hsp] at h
        cases pq with
        | mk p q =>
          cases h
          have := ih p post hsp
          simp
          omega

/-- Split on every (non-overlapping, leftmost-first) occurrence of the
non-empty separator `c :: cs`.  The `fuel` argument only bounds the
recursion depth: every separator occurrence consumes at least one
character, so `s.length` fuel always suffices. -/
def splitAllGo (c : Char) (cs : List Char) : Nat → List Char → List (List Char)
  | 0, s => [s]
  | fuel + 1, s =>
    match splitFirst c cs s with
    | none => [s]
    | some (pre, post) => pre :: splitAllGo c cs fuel post

/-- Split on every (non-overlapping, leftmost-first) occurrence of the
non-empty separator `c :: cs`; Python `s.split(sep)` for non-empty `sep`. -/
def splitAll (c : Char) (cs : List Char) (s : List Char) : List (List Char) :=
  splitAllGo c cs s.length s

theorem splitAllGo_stable (c : Char) (cs : List Char) :
    ∀ f1 : Nat, ∀ s : List Char, s.length ≤ f1 → ∀ f2 : Nat, s.length ≤ f2 →
      splitAllGo c cs f1 s = splitAllGo c cs f2 s := by
  intro f1
  induction f1 with
  | zero =>
    intro s hs f2 _
    have hnil : s = [] := List.eq_nil_of_length_eq_zero (Nat.le_zero.mp hs)
    subst hnil
    cases f2 with
    | zero => rfl
    | succ g => simp [splitAllGo, splitFirst]
  | succ f ih =>
    intro s hs f2 h2
    cases f2 with
    | zero =>
      have hnil : s = [] := List.eq_nil_of_length_eq_zero (Nat.le_zero.mp h2)
      subst hnil
      simp [splitAllGo, splitFirst]
    | succ g =>
      cases h : splitFirst c cs s with
      | none => simp [splitAllGo, h]
      | some pq =>
        cases pq with
        | mk pre post =>
          have hlt := splitFirst_shrinks c cs s pre post h
          simp only [splitAllGo, h]
          rw [ih post (by omega) g (by omega)]

/-- Unfolding rule of `splitAll` when the separator does not occur. -/
theorem splitAll_none (c : Char) (cs : List Char) (s : List Char)
    (h : splitFirst c cs s = none) : splitAll c cs s = [s] := by
  unfold splitAll
  cases hl : s.length with
  | zero => rfl
  | succ n => simp [splitAllGo, h]

/-- Unfolding rule of `splitAll` at the first separator occurrence. -/
theorem splitAll_some (c : Char) (cs : List Char) (s pre post : List Char)
    (h : splitFirst c cs s = some (pre, post)) :
    splitAll c cs s = pre :: splitAll c cs post := by
  have hlt := splitFirst_shrinks c cs s pre post h
  unfold splitAll
  have step : splitAllGo c cs s.length s = splitAllGo c cs (s.length + 1) s :=
    splitAllGo_stable c cs s.length s le_rfl (s.length + 1) (Nat.le_succ _)
  rw [step]
  simp only [splitAllGo, h]
  rw [splitAllGo_stable c cs s.length post (by omega) post.length le_rfl]

/-- Python `s.split(sep)` (for the non-empty separators used in the source). -/
def pySplit (s sep : String) : List String :=
  match sep.data with
  | [] => [s]
  | c :: cs => (splitAll c cs s.data).map (fun l => ⟨l⟩)

/-- `uri.split("://")[1].split("/")[0]` from line 157 of the source; `none`
models the `IndexError` Python raises when `"://"` does not occur in `uri`. -/
def hostOf (uri : String) : Option String :=
  match pySplit uri "://" with
  | _ :: seg :: _ => some ((pySplit seg "/").headD "")
  | _ => none

/-! ### Python dicts as association lists in insertion order -/

/-- Python `d[k] = v`: replace the value of an existing key in place,
otherwise append the new binding at the end. -/
def dictSet (l : List (String × String)) (k v : String) : List (String × String) :=
  match l with
  | [] => [(k, v)]
  | (k', v') :: rest => if k' = k then (k, v) :: rest else (k', v') :: dictSet rest k v

/-- Python `d[k]` as an `Option` (first binding of `k`). -/
def dictGet (l : List (String × String)) (k : String) : Option String :=
  match l with
  | [] => none
  | (k', v') :: rest => if k' = k then some v' else dictGet rest k

/-! ### The comparison relations of the two `sorted(...)` calls -/

/-- Python tuple comparison `(k1, v1) <= (k2, v2)` on pairs of strings:
the order used by `sorted(headers.items())` and `sorted(query_params.items())`. -/
def pairLe (a b : String × String) : Prop :=
  a.1 < b.1 ∨ (a.1 = b.1 ∧ a.2 ≤ b.2)

instance : DecidableRel pairLe := fun a b =>
  inferInstanceAs (Decidable (a.1 < b.1 ∨ (a.1 = b.1 ∧ a.2 ≤ b.2)))

/-- Comparison by key only: the order in which the spec describes the
header sort of the canonical request builder. -/
def fstLe (a b : String × String) : Prop := a.1 ≤ b.1

instance : DecidableRel fstLe := fun a b => inferInstanceAs (Decidable (a.1 ≤ b.1))

/-- Comparison by lower-cased key: the `key=lambda x: x[0].lower()` sort of
lines 198-200 of the source. -/
def lowKeyLe (a b : String × String) : Prop := lowerStr a.1 ≤ lowerStr b.1

instance : DecidableRel lowKeyLe := fun a b =>
  inferInstanceAs (Decidable (lowerStr a.1 ≤ lowerStr b.1))

instance : IsTotal (String × String) pairLe where
  total a b := by
    rcases lt_trichotomy a.1 b.1 with h | h | h
    · exact Or.inl (Or.inl h)
    · rcases le_total a.2 b.2 with h2 | h2
      · exact Or.inl (Or.inr ⟨h, h2⟩)
      · exact Or.inr (Or.inr ⟨h.symm, h2⟩)
    · exact Or.inr (Or.inl h)

instance : IsTrans (String × String) pairLe where
  trans a b c hab hbc := by
    rcases hab with h1 | h1 <;> rcases hbc with h2 | h2
    · exact Or.inl (h1.trans h2)
    · exact Or.inl (by rw [← h2.1]; exact h1)
    · exact Or.inl (by rw [h1.1]; exact h2)
    · exact Or.inr ⟨h1.1.trans h2.1, h1.2.trans h2.2⟩

instance : IsAntisymm (String × String) pairLe where
  antisymm a b hab hba := by
    rcases hab with h1 | h1 <;> rcases hba with h2 | h2
    · exact absurd h2 (lt_asymm h1)
    · exact absurd (h2.1 ▸ h1) (lt_irrefl _)
    · exact absurd (h1.1 ▸ h2) (lt_irrefl _)
    · exact Prod.ext h1.1 (le_antisymm h1.2 h2.2)

instance : IsTotal (String × String) lowKeyLe where
  total a b := le_total _ _

instance : IsTrans (String × String) lowKeyLe where
  trans _ _ _ h1 h2 := le_trans h1 h2

/-- The second newline-separated segment of a string: the characters
strictly between the first and the second newline. -/
def secondSegment (s : String) : List Char :=
  ((s.data.dropWhile (fun c => c != '\n')).tail).takeWhile (fun c => c != '\n')

/-- Python `sorted` is a stable sort; so is `List.insertionSort`, which
therefore models `sorted(l, key=...)` exactly for any decidable total
preorder. -/
def pySorted (r : (String × String) → (String × String) → Prop) [DecidableRel r]
    (l : List (String × String)) : List (String × String) :=
  l.insertionSort r

/-! ### The source functions -/

/-- Class constant `SERVICE` (line 13). -/
def SERVICE : String := "cv"

/-- Class constant `REGION` (line 14). -/
def REGION : String := "ap-singapore-1"

/-- `_create_canonical_request` (lines 95-118 of the source). -/
def create_canonical_request (method uri query_string : String)
    (headers : List (String × String)) (payload_hash : String) : String :=
  let sorted_headers := pySorted pairLe headers
  let canonical_headers :=
    pyJoin "" (sorted_headers.map (fun kv => lowerStr kv.1 ++ ":" ++ pyStrip kv.2 ++ "\n"))
  let signed_headers := pyJoin ";" (sorted_headers.map (fun kv => lowerStr kv.1))
  method ++ "\n" ++ uri ++ "\n" ++ query_string ++ "\n" ++
    canonical_headers ++ "\n" ++ signed_headers ++ "\n" ++ payload_hash

/-- `_create_string_to_sign` (lines 120-135 of the source). -/
def create_string_to_sign (algorithm amz_date date_stamp region service
    canonical_request : String) : String :=
  let credential_scope := date_stamp ++ "/" ++ region ++ "/" ++ service ++ "/aws4_request"
  algorithm ++ "\n" ++ amz_date ++ "\n" ++ credential_scope ++ "\n" ++
    hexStr (sha256 (utf8Str canonical_request))

/-- `_get_signing_key` (lines 83-93 of the source). -/
def get_signing_key (secret_key date_stamp region service : String) : List Nat :=
  let k_date := hmacSha256 (utf8Str ("AWS4" ++ secret_key)) (utf8Str date_stamp)
  let k_region := hmacSha256 k_date (utf8Str region)
  let k_service := hmacSha256 k_region (utf8Str service)
  hmacSha256 k_service (utf8Str "aws4_request")

/-- The query-string construction inlined at lines 163-167 of
`generate_authorization_header`. -/
def canonicalQueryString (query_params : List (String × String)) : String :=
  pyJoin "&" ((pySorted pairLe query_params).map (fun kv => pyQuote kv.1 ++ "=" ++ pyQuote kv.2))

/-- `hashlib.sha256(payload.encode("utf-8")).hexdigest()` from line 161. -/
def payloadHashOf (payload : String) : String := hexStr (sha256 (utf8Str payload))

/-- The canonical request as assembled by `generate_authorization_header`
at lines 163-172: the query string comes from `query_params`, the payload
hash from `payload`, and `headers` is the already-augmented mapping.  Note
that the second argument passed through is the full uri of the caller. -/
def canonicalRequestOfCall (method uri : String) (query_params : List (String × String))
    (headers : List (String × String)) (payload : String) : String :=
  create_canonical_request method uri (canonicalQueryString query_params) headers
    (payloadHashOf payload)

/-- The `SignedHeaders=` list of lines 198-200: lower-cased names in
case-insensitive ascending order. -/
def signedHeadersFinal (headers : List (String × String)) : String :=
  pyJoin ";" ((pySorted lowKeyLe headers).map (fun kv => lowerStr kv.1))

/-- The two ways `generate_authorization_header` can raise. -/
inductive SignError where
  | configError
  | indexError
deriving Repr, DecidableEq

/-- Observable outcome of one call to `generate_authorization_header`:
the returned value (or the exception), the caller-held header mapping after
the call, and the number of hash/HMAC invocations the call performed. -/
structure SignResult where
  result : Except SignError String
  headers : List (String × String)
  hashCalls : Nat
deriving Repr

/-- `generate_authorization_header` (lines 137-208 of the source).  The
wall-clock read of line 152 is abstracted into the `amz_date` and
`date_stamp` arguments; `self.access_key_id` / `self.secret_access_key`
are passed explicitly, with the empty string standing for both the empty
and the unset (`None`) credential, which the Python truthiness test at line
146 treats identically.  `hashCalls` counts the hash invocations actually
executed on each path: line 161 (1 SHA-256), line 134 via line 176
(1 SHA-256), lines 87-92 (4 HMAC), line 191 (1 HMAC); both error paths
(lines 146-149 and the index error inside line 157) occur before any of
them. -/
def generate_authorization_header (access_key_id secret_access_key : String)
    (method uri : String) (query_params headers : List (String × String))
    (payload amz_date date_stamp : String) : SignResult :=
  if secret_access_key = "" ∨ access_key_id = "" then
    ⟨Except.error SignError.configError, headers, 0⟩
  else
    match hostOf uri with
    | none => ⟨Except.error SignError.indexError, headers, 0⟩
    | some host =>
      let hs1 := dictSet headers "host" host
      let hs2 := dictSet hs1 "x-amz-date" amz_date
      let canonical_request := canonicalRequestOfCall method uri query_params hs2 payload
      let algorithm := "HMAC-SHA256"
      let string_to_sign :=
        create_string_to_sign algorithm amz_date date_stamp REGION SERVICE canonical_request
      let signing_key := get_signing_key secret_access_key date_stamp REGION SERVICE
      let signature_hex := hexStr (hmacSha256 signing_key (utf8Str string_to_sign))
      let credential :=
        access_key_id ++ "/" ++ date_stamp ++ "/" ++ REGION ++ "/" ++ SERVICE ++ "/request"
      let signed_headers := signedHeadersFinal hs2
      ⟨Except.ok (algorithm ++ " Credential=" ++ credential ++ ", SignedHeaders=" ++
          signed_headers ++ ", Signature=" ++ signature_hex), hs2, 1 + 1 + 4 + 1⟩

/-! ### Basic lemmas -/

theorem data_append (s t : String) : (s ++ t).data = s.data ++ t.data := rfl

theorem string_eq_of_data {s t : String} (h : s.data = t.data) : s = t := by
  cases s
  cases t
  exact congrArg String.mk h

theorem sha256_length (msg : List Nat) : (sha256 msg).length = 32 := by
  simp [sha256, wordBytes]

theorem hmacSha256_length (key msg : List Nat) : (hmacSha256 key msg).length = 32 := by
  simp [hmacSha256, sha256_length]

set_option maxRecDepth 100000 in
/-- Sanity anchor for the hash model: the SHA-256 digest of the empty
byte string has its standard value. -/
theorem sha256_empty_vector :
    hexStr (sha256 []) = "e3b0c44298fc1c149afbf4c8996fb92427ae41e4649b934ca495991b7852b855" := by
  decide

/-! ### Lemmas about `splitFirst`, `splitAll` and the host extraction -/

theorem data_mk (l : List Char) : (String.mk l).data = l := rfl

theorem leadsWith_refl_append (pat s : List Char) : leadsWith pat (pat ++ s) = true := by
  induction pat with
  | nil => rfl
  | cons a as ih => simp [leadsWith, ih]

/-- Occurrences of the separator cannot start inside a block whose
characters all differ from the separator head character. -/
theorem splitFirst_not_head (c : Char) (cs a s : List Char) (h : ∀ x ∈ a, x ≠ c) :
    splitFirst c cs (a ++ s) = (splitFirst c cs s).map (fun pq => (a ++ pq.1, pq.2)) := by
  induction a with
  | nil =>
    cases hs : splitFirst c cs s with
    | none => simp [hs]
    | some pq => simp [hs]
  | cons x a2 ih =>
    have hx : x ≠ c := h x (List.mem_cons_self x a2)
    have hlw : leadsWith (c :: cs) (x :: (a2 ++ s)) = false := by
      simp [leadsWith]
      intro he
      exact absurd he.symm hx
    rw [List.cons_append, splitFirst, if_neg (by rw [hlw]; exact Bool.false_ne_true)]
    rw [ih (fun y hy => h y (List.mem_cons_of_mem x hy))]
    cases hs : splitFirst c cs s with
    | none => simp
    | some pq => simp

/-- The first separator occurrence after a block free of the separator
head character splits exactly at that occurrence. -/
theorem splitFirst_at_sep (c : Char) (cs a s : List Char) (h : ∀ x ∈ a, x ≠ c) :
    splitFirst c cs (a ++ (c :: cs) ++ s) = some (a, s) := by
  have hbase : splitFirst c cs ((c :: cs) ++ s) = some ([], s) := by
    rw [List.cons_append, splitFirst,
      if_pos (by rw [← List.cons_append]; exact leadsWith_refl_append (c :: cs) s)]
    rw [List.drop_succ_cons, List.drop_left]
  rw [List.append_assoc, splitFirst_not_head c cs a ((c :: cs) ++ s) h, hbase]
  simp

/-- The slash-split of `host ++ '/' :: q` starts with segment `host`
whenever `host` contains no slash. -/
theorem splitAll_slash (host q : List Char) (hh : ∀ x ∈ host, x ≠ '/') :
    splitAll '/' [] (host ++ '/' :: q) = host :: splitAll '/' [] q := by
  have hsf : splitFirst '/' [] (host ++ '/' :: q) = some (host, q) := by
    have := splitFirst_at_sep '/' [] host q hh
    simpa using this
  exact splitAll_some '/' [] _ host q hsf

/-- Host extraction of line 157: for a well-formed
`scheme ++ "://" ++ host ++ "/" ++ path` uri (no colon in the scheme, no
colon or slash in the host), the extracted host is exactly `host`. -/
theorem hostOf_eq (scheme host path : List Char)
    (hscheme : ∀ x ∈ scheme, x ≠ ':')
    (hhost : ∀ x ∈ host, x ≠ ':' ∧ x ≠ '/') :
    hostOf ⟨scheme ++ ':' :: '/' :: '/' :: (host ++ '/' :: path)⟩ = some (String.mk host) := by
  have hsep : ("://" : String).data = [':', '/', '/'] := rfl
  have hsep2 : ("/" : String).data = ['/'] := rfl
  have h1 : splitFirst ':' ['/', '/'] (scheme ++ ':' :: '/' :: '/' :: (host ++ '/' :: path))
      = some (scheme, host ++ '/' :: path) := by
    have := splitFirst_at_sep ':' ['/', '/'] scheme (host ++ '/' :: path) hscheme
    simpa using this
  have houter : splitAll ':' ['/', '/'] (scheme ++ ':' :: '/' :: '/' :: (host ++ '/' :: path))
      = scheme :: splitAll ':' ['/', '/'] (host ++ '/' :: path) :=
    splitAll_some ':' ['/', '/'] _ _ _ h1
  cases h2 : splitFirst ':' ['/', '/'] (host ++ '/' :: path) with
  | none =>
    have hmid : splitAll ':' ['/', '/'] (host ++ '/' :: path) = [host ++ '/' :: path] :=
      splitAll_none ':' ['/', '/'] _ h2
    simp only [hostOf, pySplit, hsep, hsep2, data_mk, houter, hmid, List.map_cons,
      List.map_nil]
    rw [splitAll_slash host path (fun x hx => (hhost x hx).2)]
    rfl
  | some pq =>
    have heq : (host ++ ['/']) ++ path = host ++ '/' :: path := by simp
    have h3 : splitFirst ':' ['/', '/'] (host ++ '/' :: path)
        = (splitFirst ':' ['/', '/'] path).map
            (fun pq2 => ((host ++ ['/']) ++ pq2.1, pq2.2)) := by
      rw [← heq]
      exact splitFirst_not_head ':' ['/', '/'] (host ++ ['/']) path (by
        intro x hx
        rcases List.mem_append.mp hx with hx2 | hx2
        · exact (hhost x hx2).1
        · simp at hx2
          subst hx2
          decide)
    rw [h2] at h3
    cases h4 : splitFirst ':' ['/', '/'] path with
    | none =>
      rw [h4] at h3
      simp at h3
    | some pq2 =>
      cases pq2 with
      | mk p2 q2 =>
        rw [h4] at h3
        simp only [Option.map_some', Option.some.injEq] at h3
        subst h3
        have hmid : splitAll ':' ['/', '/'] (host ++ '/' :: path)
            = ((host ++ ['/']) ++ p2) :: splitAll ':' ['/', '/'] q2 :=
          splitAll_some ':' ['/', '/'] _ _ _ h2
        have hpre : (host ++ ['/']) ++ p2 = host ++ '/' :: p2 := by simp
        rw [hpre] at hmid
        simp only [hostOf, pySplit, hsep, hsep2, data_mk, houter, hmid, List.map_cons]
        rw [splitAll_slash host p2 (fun x hx => (hhost x hx).2)]
        rfl

/-! ### Lemmas about `dictSet` and `dictGet` -/

theorem dictGet_dictSet_self (l : List (String × String)) (k v : String) :
    dictGet (dictSet l k v) k = some v := by
  induction l with
  | nil => simp [dictSet, dictGet]
  | cons x t ih =>
    cases x with
    | mk k2 v2 =>
      by_cases hk : k2 = k
      · simp [dictSet, hk, dictGet]
      · simp [dictSet, hk, dictGet, ih]

theorem dictGet_dictSet_ne (l : List (String × String)) (k k2 v : String) (h : k ≠ k2) :
    dictGet (dictSet l k v) k2 = dictGet l k2 := by
  induction l with
  | nil => simp [dictSet, dictGet, h]
  | cons x t ih =>
    cases x with
    | mk k3 v3 =>
      by_cases hk : k3 = k
      · subst hk
        simp [dictSet, dictGet, h]
      · by_cases hk2 : k3 = k2
        · subst hk2
          simp [dictSet, hk, dictGet]
        · simp [dictSet, hk, dictGet, hk2, ih]

theorem orderedInsert_congr {α : Type} {r s : α → α → Prop}
    [DecidableRel r] [DecidableRel s] (a : α) (l : List α)
    (h : ∀ b ∈ l, (r a b ↔ s a b)) :
    l.orderedInsert r a = l.orderedInsert s a := by
  induction l with
  | nil => rfl
  | cons b t ih =>
    have hb : r a b ↔ s a b := h b (List.mem_cons_self b t)
    by_cases hr : r a b
    · simp only [List.orderedInsert]
      rw [if_pos hr, if_pos (hb.mp hr)]
    · simp only [List.orderedInsert]
      rw [if_neg hr, if_neg (fun hs2 => hr (hb.mpr hs2))]
      rw [ih (fun b2 hb2 => h b2 (List.mem_cons_of_mem b hb2))]

theorem insertionSort_congr {α : Type} {r s : α → α → Prop}
    [DecidableRel r] [DecidableRel s] (l : List α)
    (h : ∀ a ∈ l, ∀ b ∈ l, (r a b ↔ s a b)) :
    l.insertionSort r = l.insertionSort s := by
  induction l with
  | nil => rfl
  | cons a t ih =>
    simp only [List.insertionSort]
    rw [ih (fun x hx y hy => h x (List.mem_cons_of_mem a hx) y (List.mem_cons_of_mem a hy))]
    exact orderedInsert_congr a _ (fun b hb =>
      h a (List.mem_cons_self a t) b
        (List.mem_cons_of_mem a ((List.perm_insertionSort s t).mem_iff.mp hb)))

/-- In a mapping with distinct keys, two entries with the same key are the
same entry. -/
theorem eq_of_mem_of_nodup_keys {l : List (String × String)}
    (hnd : (l.map Prod.fst).Nodup) :
    ∀ a ∈ l, ∀ b ∈ l, a.1 = b.1 → a = b := by
  induction l with
  | nil => intro a ha; exact absurd ha (List.not_mem_nil a)
  | cons x t ih =>
    rw [List.map_cons, List.nodup_cons] at hnd
    intro a ha b hb he
    rcases List.mem_cons.mp ha with rfl | ha2 <;> rcases List.mem_cons.mp hb with rfl | hb2
    · rfl
    · exact absurd (by rw [he]; exact List.mem_map_of_mem Prod.fst hb2) hnd.1
    · exact absurd (by rw [← he]; exact List.mem_map_of_mem Prod.fst ha2) hnd.1
    · exact ih hnd.2 a ha2 b hb2 he

/-- On a mapping with distinct keys, Python tuple comparison of the items
agrees with comparison of the keys alone. -/
theorem pairLe_iff_fstLe_of_nodup {l : List (String × String)}
    (hnd : (l.map Prod.fst).Nodup) :
    ∀ a ∈ l, ∀ b ∈ l, (pairLe a b ↔ fstLe a b) := by
  intro a ha b hb
  by_cases he : a.1 = b.1
  · have hab : a = b := eq_of_mem_of_nodup_keys hnd a ha b hb he
    subst hab
    exact ⟨fun _ => le_refl a.1, fun _ => Or.inr ⟨rfl, le_refl a.2⟩⟩
  · constructor
    · rintro (h | ⟨he2, _⟩)
      · exact le_of_lt h
      · exact absurd he2 he
    · intro h
      exact Or.inl (lt_of_le_of_ne h he)

/-! ### Permutation lemmas for dict update and the sorts -/

/-- Every key of an updated mapping is the new key or an old key. -/
theorem mem_keys_dictSet {t : List (String × String)} {k v a : String}
    (ha : a ∈ (dictSet t k v).map Prod.fst) : a = k ∨ a ∈ t.map Prod.fst := by
  induction t with
  | nil =>
    rw [show dictSet [] k v = [(k, v)] from rfl, List.map_cons, List.map_nil] at ha
    rcases List.mem_cons.mp ha with h | h
    · exact Or.inl h
    · exact absurd h (List.not_mem_nil a)
  | cons x t2 ih =>
    cases x with
    | mk k2 v2 =>
      by_cases he : k2 = k
      · rw [show dictSet ((k2, v2) :: t2) k v = (k, v) :: t2 from by simp [dictSet, he],
          List.map_cons] at ha
        rcases List.mem_cons.mp ha with h | h
        · exact Or.inl h
        · exact Or.inr (by rw [List.map_cons]; exact List.mem_cons_of_mem _ h)
      · rw [show dictSet ((k2, v2) :: t2) k v = (k2, v2) :: dictSet t2 k v from by
            simp [dictSet, he], List.map_cons] at ha
        rcases List.mem_cons.mp ha with h | h
        · exact Or.inr (by rw [List.map_cons]; exact List.mem_cons.mpr (Or.inl h))
        · rcases ih h with h2 | h2
          · exact Or.inl h2
          · exact Or.inr (by rw [List.map_cons]; exact List.mem_cons_of_mem _ h2)

/-- Updating a mapping with distinct keys keeps the keys distinct. -/
theorem nodup_keys_dictSet (l : List (String × String)) (k v : String)
    (hnd : (l.map Prod.fst).Nodup) : ((dictSet l k v).map Prod.fst).Nodup := by
  induction l with
  | nil => simp [dictSet]
  | cons x t ih =>
    cases x with
    | mk k2 v2 =>
      rw [List.map_cons, List.nodup_cons] at hnd
      by_cases he : k2 = k
      · subst he
        rw [show dictSet ((k2, v2) :: t) k2 v = (k2, v) :: t from by simp [dictSet],
          List.map_cons, List.nodup_cons]
        exact ⟨hnd.1, hnd.2⟩
      · rw [show dictSet ((k2, v2) :: t) k v = (k2, v2) :: dictSet t k v from by
            simp [dictSet, he], List.map_cons, List.nodup_cons]
        refine ⟨fun hmem => ?_, ih hnd.2⟩
        rcases mem_keys_dictSet hmem with h2 | h2
        · exact he h2
        · exact hnd.1 h2

/-- On mappings with distinct keys, `dictSet` sends permuted mappings to
permuted mappings. -/
theorem dictSet_perm {l1 l2 : List (String × String)} (h : l1.Perm l2) (k v : String)
    (hnd : (l1.map Prod.fst).Nodup) : (dictSet l1 k v).Perm (dictSet l2 k v) := by
  induction h with
  | nil => exact List.Perm.refl _
  | cons x h12 ih =>
    cases x with
    | mk kx vx =>
      by_cases he : kx = k
      · simp only [dictSet, if_pos he]
        exact h12.cons _
      · simp only [dictSet, if_neg he]
        rw [List.map_cons, List.nodup_cons] at hnd
        exact (ih hnd.2).cons _
  | swap x y t =>
    cases x with
    | mk kx vx =>
      cases y with
      | mk ky vy =>
        by_cases hx : kx = k <;> by_cases hy : ky = k
        · exfalso
          rw [List.map_cons, List.map_cons, List.nodup_cons] at hnd
          exact hnd.1 (by simp [hx, hy])
        · simp only [dictSet, if_pos hx, if_neg hy]
          exact List.Perm.swap _ _ _
        · simp only [dictSet, if_pos hy, if_neg hx]
          exact List.Perm.swap _ _ _
        · simp only [dictSet, if_neg hx, if_neg hy]
          exact List.Perm.swap _ _ _
  | trans h12 h23 ih12 ih23 =>
    exact (ih12 hnd).trans (ih23 ((h12.map Prod.fst).nodup_iff.mp hnd))

/-- Sorting by an antisymmetric total order is insensitive to the input
order. -/
theorem insertionSort_eq_of_perm {α : Type} {r : α → α → Prop} [DecidableRel r]
    [IsTotal α r] [IsTrans α r] [IsAntisymm α r] {l1 l2 : List α} (h : l1.Perm l2) :
    l1.insertionSort r = l2.insertionSort r :=
  List.eq_of_perm_of_sorted
    ((List.perm_insertionSort r l1).trans (h.trans (List.perm_insertionSort r l2).symm))
    (List.sorted_insertionSort r l1) (List.sorted_insertionSort r l2)

/-- The final signed-headers list of names only depends on the multiset of
headers: the lower-cased key sequence of the stable sort by lower-cased key
is the unique ascending ordering of the lower-cased keys. -/
theorem signedHeadersFinal_perm {l1 l2 : List (String × String)} (h : l1.Perm l2) :
    signedHeadersFinal l1 = signedHeadersFinal l2 := by
  have hs1 : List.Sorted (· ≤ · : String → String → Prop)
      ((l1.insertionSort lowKeyLe).map (fun kv => lowerStr kv.1)) :=
    List.Pairwise.map _ (fun _ _ hab => hab) (List.sorted_insertionSort lowKeyLe l1)
  have hs2 : List.Sorted (· ≤ · : String → String → Prop)
      ((l2.insertionSort lowKeyLe).map (fun kv => lowerStr kv.1)) :=
    List.Pairwise.map _ (fun _ _ hab => hab) (List.sorted_insertionSort lowKeyLe l2)
  have hperm : ((l1.insertionSort lowKeyLe).map (fun kv => lowerStr kv.1)).Perm
      ((l2.insertionSort lowKeyLe).map (fun kv => lowerStr kv.1)) :=
    ((List.perm_insertionSort lowKeyLe l1).map _).trans
      ((h.map _).trans (((List.perm_insertionSort lowKeyLe l2).map _).symm))
  have hmapeq := List.eq_of_perm_of_sorted hperm hs1 hs2
  simp only [signedHeadersFinal, pySorted, hmapeq]

/-- The canonical query string only depends on the multiset of query
parameters. -/
theorem canonicalQueryString_perm {l1 l2 : List (String × String)} (h : l1.Perm l2) :
    canonicalQueryString l1 = canonicalQueryString l2 := by
  simp only [canonicalQueryString, pySorted, insertionSort_eq_of_perm h]

/-! ### Locating the second newline-separated segment -/

theorem dropWhile_ne_append (a b : List Char) (x : Char) (h : ∀ c ∈ a, c ≠ x) :
    (a ++ x :: b).dropWhile (fun c => c != x) = x :: b := by
  induction a with
  | nil => simp [List.dropWhile]
  | cons y a2 ih =>
    have hy : y ≠ x := h y (List.mem_cons_self _ _)
    simp only [List.cons_append, List.dropWhile_cons, bne_iff_ne, ne_eq, hy,
      not_false_eq_true, if_true]
    exact ih (fun c hc => h c (List.mem_cons_of_mem _ hc))

theorem takeWhile_ne_append (a b : List Char) (x : Char) (h : ∀ c ∈ a, c ≠ x) :
    (a ++ x :: b).takeWhile (fun c => c != x) = a := by
  induction a with
  | nil => simp [List.takeWhile]
  | cons y a2 ih =>
    have hy : y ≠ x := h y (List.mem_cons_self _ _)
    simp only [List.cons_append, List.takeWhile_cons, bne_iff_ne, ne_eq, hy,
      not_false_eq_true, if_true]
    rw [ih (fun c hc => h c (List.mem_cons_of_mem _ hc))]

/-- When method and uri contain no newline, the second segment of the
canonical request built by `_create_canonical_request` is its second
argument, exactly as passed. -/
theorem secondSegment_canonical (m u q : String) (hs : List (String × String)) (p : String)
    (hm : ∀ c ∈ m.data, c ≠ '\n') (hu : ∀ c ∈ u.data, c ≠ '\n') :
    secondSegment (create_canonical_request m u q hs p) = u.data := by
  have hnl : ("\n" : String).data = ['\n'] := rfl
  have hX : (create_canonical_request m u q hs p).data
      = m.data ++ '\n' :: (u.data ++ '\n' ::
          (q ++ "\n" ++ pyJoin "" ((pySorted pairLe hs).map
              (fun kv => lowerStr kv.1 ++ ":" ++ pyStrip kv.2 ++ "\n")) ++ "\n" ++
            pyJoin ";" ((pySorted pairLe hs).map (fun kv => lowerStr kv.1)) ++ "\n" ++ p).data) := by
    simp [create_canonical_request, data_append, hnl, List.append_assoc]
  simp only [secondSegment, hX]
  rw [dropWhile_ne_append _ _ _ hm, List.tail_cons]
  exact takeWhile_ne_append _ _ _ hu

/-! ### Claim theorems -/

set_option maxRecDepth 1000000 in
/-- C1 (counterexample): in the canonical request assembled by
`generate_authorization_header` for the call of the spec scenario (uri
`https://cv.byteplusapi.com/path`, empty query, empty payload, the two
injected headers), the second segment is the full
`scheme://host/path` uri supplied by the caller and not the path-only
`/path` that the claim asserts. -/
theorem canonical_second_segment_full_uri :
    secondSegment (canonicalRequestOfCall "GET" "https://cv.byteplusapi.com/path" []
        [("host", "cv.byteplusapi.com"), ("x-amz-date", "20240101T000000Z")] "")
      = "https://cv.byteplusapi.com/path".data ∧
    "https://cv.byteplusapi.com/path".data ≠ "/path".data := by
  constructor
  · decide
  · decide

/-- C1 (amended): for every call of `generate_authorization_header` whose
method and uri contain no newline, the second segment of the canonical
request string used for signing is the uri string exactly as supplied by
the caller — the full `scheme://host/path` value, not only its path
component. -/
theorem canonical_second_segment_is_uri (m u : String)
    (qp hs2 : List (String × String)) (p : String)
    (hm : ∀ c ∈ m.data, c ≠ '\n') (hu : ∀ c ∈ u.data, c ≠ '\n') :
    secondSegment (canonicalRequestOfCall m u qp hs2 p) = u.data :=
  secondSegment_canonical m u (canonicalQueryString qp) hs2 (payloadHashOf p) hm hu

/-- C1 witness: the amended theorem instantiated at a concrete call. -/
theorem canonical_second_segment_is_uri_witness :
    (∀ c ∈ ("GET" : String).data, c ≠ '\n') ∧
    (∀ c ∈ ("https://x/y" : String).data, c ≠ '\n') ∧
    secondSegment (canonicalRequestOfCall "GET" "https://x/y" [("a", "1")] [("h", "v")] "pay")
      = ("https://x/y" : String).data :=
  ⟨by decide, by decide,
    canonical_second_segment_is_uri "GET" "https://x/y" [("a", "1")] [("h", "v")] "pay"
      (by decide) (by decide)⟩

/-- C4: for every `secret_key`, `date_stamp`, `region`, and `service`, the
derived signing key equals the four-step HMAC-SHA256 chain starting from
the UTF-8 encoding of `"AWS4" + secret_key`, each step keying the next
with messages `date_stamp`, `region`, `service`, `"aws4_request"`, and the
result is exactly 32 bytes long. -/
theorem signing_key_derivation (secret_key date_stamp region service : String) :
    get_signing_key secret_key date_stamp region service =
      hmacSha256 (hmacSha256 (hmacSha256 (hmacSha256 (utf8Str ("AWS4" ++ secret_key))
        (utf8Str date_stamp)) (utf8Str region)) (utf8Str service)) (utf8Str "aws4_request") ∧
    (get_signing_key secret_key date_stamp region service).length = 32 := by
  refine ⟨rfl, ?_⟩
  simp [get_signing_key, hmacSha256_length]

/-- C6: the string-to-sign is exactly four newline-joined lines: algorithm
tag, timestamp, the credential scope `date_stamp/region/service/aws4_request`,
and the hex SHA-256 digest of the UTF-8 encoded canonical request. -/
theorem string_to_sign_four_lines
    (algorithm amz_date date_stamp region service canonical_request : String) :
    create_string_to_sign algorithm amz_date date_stamp region service canonical_request =
      pyJoin "\n" [algorithm, amz_date,
        date_stamp ++ "/" ++ region ++ "/" ++ service ++ "/aws4_request",
        hexStr (sha256 (utf8Str canonical_request))] := by
  apply string_eq_of_data
  simp [create_string_to_sign, pyJoin, data_append, List.append_assoc]

/-- C2 (counterexample): with both credentials non-empty, a `uri` that does
not contain `"://"` still makes `generate_authorization_header` raise (an
index error), refuting the clause that no error is raised whenever the
credentials are non-empty. -/
theorem nonempty_credentials_index_error :
    (generate_authorization_header "AK" "SK" "GET" "nouri" [] [] ""
        "20240101T000000Z" "20240101").result = Except.error SignError.indexError ∧
    ¬("SK" = "" ∨ "AK" = "") :=
  ⟨rfl, by decide⟩

/-- C2 (amended): the configuration error is raised exactly when a
credential is empty or unset, and on that path no hash or HMAC computation
has been performed; for non-empty credentials the configuration error is
never raised, and the call succeeds whenever the `uri` contains `"://"`
(a `uri` without `"://"` raises an index error, also before any hashing). -/
theorem config_error_characterization (ak sk m u : String)
    (qp hs : List (String × String)) (p ad ds : String) :
    ((generate_authorization_header ak sk m u qp hs p ad ds).result
        = Except.error SignError.configError ↔ (sk = "" ∨ ak = "")) ∧
    ((sk = "" ∨ ak = "") →
      (generate_authorization_header ak sk m u qp hs p ad ds).hashCalls = 0) ∧
    (¬(sk = "" ∨ ak = "") → hostOf u = none →
      (generate_authorization_header ak sk m u qp hs p ad ds).result
          = Except.error SignError.indexError ∧
      (generate_authorization_header ak sk m u qp hs p ad ds).hashCalls = 0) ∧
    (¬(sk = "" ∨ ak = "") → ∀ host, hostOf u = some host →
      ∃ s, (generate_authorization_header ak sk m u qp hs p ad ds).result = Except.ok s) := by
  by_cases hc : sk = "" ∨ ak = ""
  · simp [generate_authorization_header, hc]
  · cases hh : hostOf u with
    | none => simp [generate_authorization_header, hc, hh]
    | some host => simp [generate_authorization_header, hc, hh]

/-- C2 witness: the characterization instantiated at concrete inputs. -/
theorem config_error_characterization_witness :
    ((generate_authorization_header "" "" "GET" "https://h/p" [] [] "" "ad" "ds").result
        = Except.error SignError.configError ↔ ("" = "" ∨ "" = "")) ∧
    (("" = "" ∨ "" = "") →
      (generate_authorization_header "" "" "GET" "https://h/p" [] [] "" "ad" "ds").hashCalls = 0) ∧
    (¬("" = "" ∨ "" = "") → hostOf "https://h/p" = none →
      (generate_authorization_header "" "" "GET" "https://h/p" [] [] "" "ad" "ds").result
          = Except.error SignError.indexError ∧
      (generate_authorization_header "" "" "GET" "https://h/p" [] [] "" "ad" "ds").hashCalls = 0) ∧
    (¬("" = "" ∨ "" = "") → ∀ host, hostOf "https://h/p" = some host →
      ∃ s, (generate_authorization_header "" "" "GET" "https://h/p" [] [] "" "ad" "ds").result
        = Except.ok s) :=
  config_error_characterization "" "" "GET" "https://h/p" [] [] "" "ad" "ds"

/-- C5: for every header mapping (distinct keys, as in a Python dict), the
canonical request builder sorts the entries ascending by the original-case
names, renders each header line as `lower(name):trim(value)` plus a
newline, derives the semicolon-joined signed-headers list of lower-cased
names from that same sorted order, and joins the six segments with single
newlines, the trailing newline of the header block leaving exactly one
blank line before the signed-headers line. -/
theorem canonical_request_structure (m u q : String) (hs : List (String × String))
    (p : String) (hnd : (hs.map Prod.fst).Nodup) :
    create_canonical_request m u q hs p =
      m ++ "\n" ++ u ++ "\n" ++ q ++ "\n" ++
      pyJoin "" ((hs.insertionSort fstLe).map
        (fun kv => lowerStr kv.1 ++ ":" ++ pyStrip kv.2 ++ "\n")) ++ "\n" ++
      pyJoin ";" ((hs.insertionSort fstLe).map (fun kv => lowerStr kv.1)) ++ "\n" ++ p := by
  have hsort : pySorted pairLe hs = hs.insertionSort fstLe :=
    insertionSort_congr hs (pairLe_iff_fstLe_of_nodup hnd)
  simp only [create_canonical_request, hsort]

/-- C5 witness: the structure theorem instantiated at a concrete header
mapping with mixed-case names and padded values. -/
theorem canonical_request_structure_witness :
    (([("B", "1"), ("a", " 2 ")] : List (String × String)).map Prod.fst).Nodup ∧
    create_canonical_request "GET" "https://h/p" "x=y" [("B", "1"), ("a", " 2 ")] "PH" =
      "GET" ++ "\n" ++ "https://h/p" ++ "\n" ++ "x=y" ++ "\n" ++
      pyJoin "" ((([("B", "1"), ("a", " 2 ")] : List (String × String)).insertionSort fstLe).map
        (fun kv => lowerStr kv.1 ++ ":" ++ pyStrip kv.2 ++ "\n")) ++ "\n" ++
      pyJoin ";" ((([("B", "1"), ("a", " 2 ")] : List (String × String)).insertionSort fstLe).map
        (fun kv => lowerStr kv.1)) ++ "\n" ++ "PH" :=
  ⟨by decide, canonical_request_structure "GET" "https://h/p" "x=y"
    [("B", "1"), ("a", " 2 ")] "PH" (by decide)⟩

/-- C7: the query string is built by sorting `query_params` by key in
ascending string order, percent-encoding key and value with an empty safe
set, and joining the `key=value` pairs with ampersands; the empty mapping
yields the empty string. -/
theorem query_string_sorted_encoded (qp : List (String × String))
    (hnd : (qp.map Prod.fst).Nodup) :
    canonicalQueryString qp =
      pyJoin "&" ((qp.insertionSort fstLe).map
        (fun kv => pyQuote kv.1 ++ "=" ++ pyQuote kv.2)) ∧
    canonicalQueryString ([] : List (String × String)) = "" := by
  constructor
  · have hsort : pySorted pairLe qp = qp.insertionSort fstLe :=
      insertionSort_congr qp (pairLe_iff_fstLe_of_nodup hnd)
    simp only [canonicalQueryString, hsort]
  · rfl

/-- C7 witness: the query-string theorem instantiated at a concrete
mapping given in non-sorted insertion order. -/
theorem query_string_sorted_encoded_witness :
    (([("b", "2"), ("a", "1 x")] : List (String × String)).map Prod.fst).Nodup ∧
    (canonicalQueryString [("b", "2"), ("a", "1 x")] =
      pyJoin "&" ((([("b", "2"), ("a", "1 x")] : List (String × String)).insertionSort fstLe).map
        (fun kv => pyQuote kv.1 ++ "=" ++ pyQuote kv.2)) ∧
    canonicalQueryString ([] : List (String × String)) = "") :=
  ⟨by decide, query_string_sorted_encoded [("b", "2"), ("a", "1 x")] (by decide)⟩

/-- C3: every successful call returns exactly the string
`{algorithm} Credential={access_key_id}/{date_stamp}/{region}/{service}/request,
SignedHeaders={signed_headers}, Signature={signature_hex}`, where
`signed_headers` sorts the host- and date-augmented header names
case-insensitively (ascending lower-cased name) and joins the lower-cased
forms with semicolons; that list is a permutation of (contains the same
names as) the signed-headers line used inside the canonical request, which
is sorted by original-case name instead. -/
theorem authorization_header_format (ak sk m u : String)
    (qp hs : List (String × String)) (p ad ds : String) (host : String)
    (hak : ak ≠ "") (hsk : sk ≠ "") (hhost : hostOf u = some host) :
    (generate_authorization_header ak sk m u qp hs p ad ds).result =
      Except.ok ("HMAC-SHA256" ++ " Credential=" ++ ak ++ "/" ++ ds ++ "/" ++ REGION ++ "/"
        ++ SERVICE ++ "/request" ++ ", SignedHeaders=" ++
        pyJoin ";" (((dictSet (dictSet hs "host" host) "x-amz-date" ad).insertionSort
          lowKeyLe).map (fun kv => lowerStr kv.1)) ++
        ", Signature=" ++
        hexStr (hmacSha256 (get_signing_key sk ds REGION SERVICE)
          (utf8Str (create_string_to_sign "HMAC-SHA256" ad ds REGION SERVICE
            (canonicalRequestOfCall m u qp
              (dictSet (dictSet hs "host" host) "x-amz-date" ad) p))))) ∧
    (((dictSet (dictSet hs "host" host) "x-amz-date" ad).insertionSort lowKeyLe).map
        (fun kv => lowerStr kv.1)).Perm
      (((dictSet (dictSet hs "host" host) "x-amz-date" ad).insertionSort pairLe).map
        (fun kv => lowerStr kv.1)) := by
  have hc : ¬(sk = "" ∨ ak = "") := by simp [hak, hsk]
  constructor
  · simp only [generate_authorization_header, hc, if_false, hhost, signedHeadersFinal,
      pySorted]
    exact congrArg Except.ok (string_eq_of_data (by
      simp [data_append, List.append_assoc]))
  · exact ((List.perm_insertionSort lowKeyLe _).map _).trans
      (((List.perm_insertionSort pairLe _).map _).symm)

/-- C3 witness: the format theorem instantiated at concrete inputs. -/
theorem authorization_header_format_witness :
    ("AK" : String) ≠ "" ∧ ("SK" : String) ≠ "" ∧ hostOf "https://h/p" = some "h" ∧
    ((generate_authorization_header "AK" "SK" "GET" "https://h/p" [] [] "" "AD" "DS").result =
      Except.ok ("HMAC-SHA256" ++ " Credential=" ++ "AK" ++ "/" ++ "DS" ++ "/" ++ REGION ++ "/"
        ++ SERVICE ++ "/request" ++ ", SignedHeaders=" ++
        pyJoin ";" (((dictSet (dictSet [] "host" "h") "x-amz-date" "AD").insertionSort
          lowKeyLe).map (fun kv => lowerStr kv.1)) ++
        ", Signature=" ++
        hexStr (hmacSha256 (get_signing_key "SK" "DS" REGION SERVICE)
          (utf8Str (create_string_to_sign "HMAC-SHA256" "AD" "DS" REGION SERVICE
            (canonicalRequestOfCall "GET" "https://h/p" []
              (dictSet (dictSet [] "host" "h") "x-amz-date" "AD") ""))))) ∧
    (((dictSet (dictSet [] "host" "h") "x-amz-date" "AD").insertionSort lowKeyLe).map
        (fun kv => lowerStr kv.1)).Perm
      (((dictSet (dictSet [] "host" "h") "x-amz-date" "AD").insertionSort pairLe).map
        (fun kv => lowerStr kv.1))) :=
  ⟨by decide, by decide, by decide,
    authorization_header_format "AK" "SK" "GET" "https://h/p" [] [] "" "AD" "DS" "h"
      (by decide) (by decide) (by decide)⟩

/-- C8: for a fixed timestamp and fixed credentials, permuting the
insertion order of `query_params` or of `headers` (the latter with the
distinct keys of a Python dict) does not change the returned header
string, because both mappings are sorted internally before use. -/
theorem insertion_order_independence (ak sk m u : String)
    (qp1 qp2 hs1 hs2 : List (String × String)) (p ad ds : String)
    (hqp : qp1.Perm qp2) (hhs : hs1.Perm hs2) (hnd : (hs1.map Prod.fst).Nodup) :
    (generate_authorization_header ak sk m u qp1 hs1 p ad ds).result
      = (generate_authorization_header ak sk m u qp2 hs2 p ad ds).result := by
  by_cases hc : sk = "" ∨ ak = ""
  · simp [generate_authorization_header, hc]
  · cases hh : hostOf u with
    | none => simp [generate_authorization_header, hc, hh]
    | some host =>
      have hperm1 : (dictSet hs1 "host" host).Perm (dictSet hs2 "host" host) :=
        dictSet_perm hhs "host" host hnd
      have hnd1 : ((dictSet hs1 "host" host).map Prod.fst).Nodup :=
        nodup_keys_dictSet hs1 "host" host hnd
      have hperm2 : (dictSet (dictSet hs1 "host" host) "x-amz-date" ad).Perm
          (dictSet (dictSet hs2 "host" host) "x-amz-date" ad) :=
        dictSet_perm hperm1 "x-amz-date" ad hnd1
      have hsorteq : (dictSet (dictSet hs1 "host" host) "x-amz-date" ad).insertionSort pairLe
          = (dictSet (dictSet hs2 "host" host) "x-amz-date" ad).insertionSort pairLe :=
        insertionSort_eq_of_perm hperm2
      have hq : canonicalQueryString qp1 = canonicalQueryString qp2 :=
        canonicalQueryString_perm hqp
      have hsh : signedHeadersFinal (dictSet (dictSet hs1 "host" host) "x-amz-date" ad)
          = signedHeadersFinal (dictSet (dictSet hs2 "host" host) "x-amz-date" ad) :=
        signedHeadersFinal_perm hperm2
      have hcr : canonicalRequestOfCall m u qp1
            (dictSet (dictSet hs1 "host" host) "x-amz-date" ad) p
          = canonicalRequestOfCall m u qp2
            (dictSet (dictSet hs2 "host" host) "x-amz-date" ad) p := by
        simp only [canonicalRequestOfCall, create_canonical_request, pySorted, hsorteq, hq]
      simp only [generate_authorization_header, hc, if_false, hh, hcr, hsh]

/-- C8 witness: the independence theorem instantiated at two permuted
presentations of the same query mapping and the same header mapping. -/
theorem insertion_order_independence_witness :
    ([("b", "2"), ("a", "1")] : List (String × String)).Perm [("a", "1"), ("b", "2")] ∧
    ([("X", "x"), ("Y", "y")] : List (String × String)).Perm [("Y", "y"), ("X", "x")] ∧
    (([("X", "x"), ("Y", "y")] : List (String × String)).map Prod.fst).Nodup ∧
    (generate_authorization_header "AK" "SK" "GET" "https://h/p"
        [("b", "2"), ("a", "1")] [("X", "x"), ("Y", "y")] "" "AD" "DS").result
      = (generate_authorization_header "AK" "SK" "GET" "https://h/p"
        [("a", "1"), ("b", "2")] [("Y", "y"), ("X", "x")] "" "AD" "DS").result :=
  ⟨by decide, by decide, by decide,
    insertion_order_independence "AK" "SK" "GET" "https://h/p"
      [("b", "2"), ("a", "1")] [("a", "1"), ("b", "2")]
      [("X", "x"), ("Y", "y")] [("Y", "y"), ("X", "x")] "" "AD" "DS"
      (by decide) (by decide) (by decide)⟩

/-- C9: for a non-erroring call on a uri of the shape
`scheme ++ "://" ++ host ++ "/" ++ path` (no colon in the scheme, no colon
or slash in the host), the header mapping returned by
`generate_authorization_header` holds a `host` entry whose value is the
host obtained by stripping the scheme and the path from the uri. -/
theorem host_header_injection (ak sk m : String) (scheme host path : List Char)
    (qp hs : List (String × String)) (p ad ds : String)
    (hak : ak ≠ "") (hsk : sk ≠ "")
    (hscheme : ∀ x ∈ scheme, x ≠ ':')
    (hhost : ∀ x ∈ host, x ≠ ':' ∧ x ≠ '/') :
    dictGet (generate_authorization_header ak sk m
        ⟨scheme ++ ':' :: '/' :: '/' :: (host ++ '/' :: path)⟩ qp hs p ad ds).headers "host"
      = some (String.mk host) := by
  have hc : ¬(sk = "" ∨ ak = "") := by simp [hak, hsk]
  have hH := hostOf_eq scheme host path hscheme hhost
  simp only [generate_authorization_header, hc, if_false, hH]
  rw [dictGet_dictSet_ne _ _ _ _ (by decide)]
  exact dictGet_dictSet_self hs "host" (String.mk host)

/-- C9 witness: the uri `https://cv.byteplusapi.com/path` yields the
injected header value `cv.byteplusapi.com`. -/
theorem host_header_injection_witness :
    String.mk ("https".data ++ ':' :: '/' :: '/' ::
        ("cv.byteplusapi.com".data ++ '/' :: "path".data)) = "https://cv.byteplusapi.com/path" ∧
    dictGet (generate_authorization_header "AK" "SK" "POST"
        ⟨"https".data ++ ':' :: '/' :: '/' :: ("cv.byteplusapi.com".data ++ '/' :: "path".data)⟩
        [] [] "{}" "AD" "DS").headers "host" = some (String.mk "cv.byteplusapi.com".data) :=
  ⟨by decide,
    host_header_injection "AK" "SK" "POST" "https".data "cv.byteplusapi.com".data "path".data
      [] [] "{}" "AD" "DS" (by decide) (by decide) (by decide) (by decide)⟩

/-- C10: if `generate_authorization_header` raises the missing-credential
configuration error, the caller header mapping is returned completely
unchanged: `host` and `x-amz-date` are injected only after the credential
check has passed. -/
theorem error_path_headers_unchanged (ak sk m u : String)
    (qp hs : List (String × String)) (p ad ds : String)
    (h : (generate_authorization_header ak sk m u qp hs p ad ds).result
        = Except.error SignError.configError) :
    (generate_authorization_header ak sk m u qp hs p ad ds).headers = hs := by
  by_cases hc : sk = "" ∨ ak = ""
  · simp [generate_authorization_header, hc]
  · exfalso
    cases hh : hostOf u with
    | none => simp [generate_authorization_header, hc, hh] at h
    | some host => simp [generate_authorization_header, hc, hh] at h

/-- C10 witness: a call with empty credentials raises the configuration
error and leaves the header mapping untouched. -/
theorem error_path_headers_unchanged_witness :
    (generate_authorization_header "" "" "GET" "https://h/p" [] [("A", "B")] "" "ad" "ds").result
        = Except.error SignError.configError ∧
    (generate_authorization_header "" "" "GET" "https://h/p" [] [("A", "B")] "" "ad" "ds").headers
        = [("A", "B")] :=
  ⟨rfl, error_path_headers_unchanged "" "" "GET" "https://h/p" [] [("A", "B")] "" "ad" "ds" rfl⟩

end OmniHuman

